import Mathlib

/-!
Verification of the React-Native-aware TypeScript module resolver
(`packages/typescript-react-native-resolver/src/index.ts`, host revision).

The resolver is embedded shallowly: filesystem probes, package-manifest
reads and the upward `node_modules` walk are oracle fields of an `FSEnv`
record (they are external collaborators of the resolver core), while every
algorithmic function of the source file is translated one-to-one.  Node's
`path.join` / `path.dirname` / `path.resolve` are modelled for the POSIX
paths the resolver manipulates (absolute directories, relative module
paths without `..` segments).
-/

namespace RnxResolver

/-! Kernel-computable models of the JavaScript string primitives the
resolver uses (`startsWith`, `endsWith`, `length`, `substring`,
`split("/")` and join), implemented over the character list of a
`String` so every definition below evaluates by reduction. -/

/-- `s.startsWith(p)`. -/
def strStartsWith (s p : String) : Bool := p.data.isPrefixOf s.data

/-- `s.endsWith(p)`. -/
def strEndsWith (s p : String) : Bool := p.data.isSuffixOf s.data

/-- `s.substring(n)`: drop the first `n` characters. -/
def strDrop (s : String) (n : Nat) : String := String.mk (s.data.drop n)

/-- `s.substring(0, s.length - n)`: drop the last `n` characters. -/
def strDropRight (s : String) (n : Nat) : String :=
  String.mk (s.data.take (s.data.length - n))

/-- `s.length`. -/
def strLength (s : String) : Nat := s.data.length

/-- `split("/")` on a character list. -/
def splitOnSlashChars : List Char → List (List Char)
  | [] => [[]]
  | c :: cs =>
    if c = '/' then [] :: splitOnSlashChars cs
    else
      match splitOnSlashChars cs with
      | [] => [[c]]
      | h :: t => (c :: h) :: t

/-- `s.split("/")`. -/
def splitOnSlash (s : String) : List String :=
  (splitOnSlashChars s.data).map String.mk

/-- `parts.join("/")`. -/
def joinSlash : List String → String
  | [] => ""
  | [x] => x
  | x :: xs => x ++ "/" ++ joinSlash xs


/-- `ts.Extension` members used by the resolver (a closed set). -/
inductive Extension where
  | Ts
  | Tsx
  | Dts
  | Js
  | Jsx
  | Json
deriving DecidableEq, Repr

/-- The literal text of each extension, as in the TypeScript enum. -/
def Extension.str : Extension → String
  | .Ts => ".ts"
  | .Tsx => ".tsx"
  | .Dts => ".d.ts"
  | .Js => ".js"
  | .Jsx => ".jsx"
  | .Json => ".json"

/-- The `Extensions` constant of index.ts: search order for recognizing an
explicit extension on a module path. -/
def Extensions : List Extension :=
  [Extension.Dts, Extension.Tsx, Extension.Ts,
   Extension.Json, Extension.Jsx, Extension.Js]

/-- `hasExtension(p, ext)` from index.ts:
`p.length > ext.length && p.endsWith(ext)`. -/
def hasExtension (p : String) (ext : Extension) : Bool :=
  decide (strLength ext.str < strLength p) && strEndsWith p ext.str

/-- `getExtensionFromPath(p)` from index.ts:
`Extensions.find((e) => hasExtension(p, e))`. -/
def getExtensionFromPath (p : String) : Option Extension :=
  Extensions.find? (fun e => hasExtension p e)

/-- Model of Node `path.join(dir, p)` for an absolute `dir` and a relative
`p` without `..` segments: append with a separator, normalizing a leading
`./` on `p`. -/
def pathJoin (d p : String) : String :=
  d ++ "/" ++ (if strStartsWith p "./" then strDrop p 2 else p)

/-- Model of Node `path.dirname` for POSIX paths. -/
def dirname (p : String) : String :=
  match (splitOnSlash p).dropLast with
  | [] => p
  | [""] => "/"
  | parts => joinSlash parts

/-- Model of Node `path.resolve(dir, p)` for an absolute `dir` and a `p`
that is either absolute or relative without `..` segments. -/
def pathResolve (dir p : String) : String :=
  if strStartsWith p "/" then p else pathJoin dir p

/-- The subset of `package.json` fields read by `resolveModule`
(`isString` tests become `Option.isSome`; a missing or non-string field is
`none`). -/
structure PackageManifest where
  types : Option String
  typings : Option String
  main : Option String
deriving Repr

/-- External environment of the resolver: file/directory existence
(`isFile` / `isDirectory` of io probes), `readPackage` manifests, and the
`findPackageDependencyDir` upward `node_modules` walk of
rnx-kit tools-node (an external collaborator, modelled as an oracle on
scope, package name and start directory). -/
structure FSEnv where
  files : List String
  dirs : List String
  manifest : String → PackageManifest
  findPackageDependencyDir : Option String → String → String → Option String

def FSEnv.isFile (fs : FSEnv) (p : String) : Bool :=
  fs.files.contains p

def FSEnv.isDirectory (fs : FSEnv) (p : String) : Bool :=
  fs.dirs.contains p

/-- `ts.ResolvedModuleFull` restricted to the fields the resolver
produces. -/
structure ResolvedModuleFull where
  resolvedFileName : String
  extension : Extension
deriving DecidableEq, Repr

/-- Constructor inputs of `ReactNativeResolverHost` that the claims
depend on, together with the compiler options consulted there. -/
structure HostConfig where
  platform : String
  platformExtensionsExtra : List String
  disableReactNativePackageSubstitution : Bool
  checkJs : Bool
  resolveJsonModule : Bool

/-- `this.platformExtensions` computed in the host constructor:
`[platform, ...extras].map(e => "." + e)`. -/
def HostConfig.platformExtensions (c : HostConfig) : List String :=
  (c.platform :: c.platformExtensionsExtra).map (fun e => "." ++ e)

/-- `this.extensionsTypeScript` assigned in the host constructor. -/
def extensionsTypeScript : List Extension :=
  [Extension.Ts, Extension.Tsx, Extension.Dts]

/-- `this.extensionsAll` assigned in the host constructor: the TypeScript
list, plus `.js`/`.jsx` under `checkJs`, plus `.json` under
`resolveJsonModule`. -/
def HostConfig.extensionsAll (c : HostConfig) : List Extension :=
  [Extension.Ts, Extension.Tsx, Extension.Dts]
    ++ (if c.checkJs then [Extension.Js, Extension.Jsx] else [])
    ++ (if c.resolveJsonModule then [Extension.Json] else [])

/-- The extension list chosen at the top of `resolveModuleNames` from the
containing file. -/
def extensionsFor (c : HostConfig) (containingFile : String) : List Extension :=
  if hasExtension containingFile Extension.Dts then extensionsTypeScript
  else c.extensionsAll

/-- `getReactNativePackageName(platform)` from index.ts (same switch as
`getReactNativePlatformPackageName` in react-native-package-name.ts). -/
def getReactNativePackageName (platform : String) : Option String :=
  if platform = "windows" then some "react-native-windows"
  else if platform = "macos" then some "react-native-macos"
  else if platform = "win32" then some "@office-iss/react-native-win32"
  else none

/-- `replaceReactNativePackageName(m)` of the host: return `m` unchanged
when substitution is disabled, the platform has no mapping, or `m` does
not start with `react-native`; otherwise concatenate the mapped package
name with `m.substring("react-native".length)`. -/
def replaceReactNativePackageName (c : HostConfig) (m : String) : String :=
  if c.disableReactNativePackageSubstitution then m
  else
    match getReactNativePackageName c.platform with
    | none => m
    | some rnPackageName =>
      if strStartsWith m "react-native" then
        rnPackageName ++ strDrop m (strLength "react-native")
      else m

/-- `createReactNativePackageNameReplacer(platform, enabled)` from
react-native-package-name.ts, applied to a module string. -/
def createReactNativePackageNameReplacer
    (platform : String) (enabled : Bool) (m : String) : String :=
  match getReactNativePackageName platform with
  | none => m
  | some platformPackageName =>
    if !enabled then m
    else if strStartsWith m "react-native" then
      platformPackageName ++ strDrop m (strLength "react-native")
    else m

/-- Module reference as classified by rnx-kit tools-node. -/
inductive ModuleRef where
  | pkg (scope : Option String) (name : String) (path : Option String)
  | file (path : String)
deriving DecidableEq, Repr

/-- Modelled from the spec: `parseModuleRef` of rnx-kit tools-node (the
package itself is not part of the resolver sources).  Rules, top to
bottom: a specifier starting with `./`, `../` or `/` is a File reference;
`@scope/name(/rest)?` and `name(/rest)?` are Package references with the
rest as sub-path; anything else is a File reference with the raw string.
Windows drive-letter paths are not modelled. -/
def parseModuleRef (spec : String) : ModuleRef :=
  if strStartsWith spec "./" || strStartsWith spec "../" || strStartsWith spec "/" then
    ModuleRef.file spec
  else if strStartsWith spec "@" then
    match splitOnSlash spec with
    | scope :: name :: rest =>
      if name = "" then ModuleRef.file spec
      else
        ModuleRef.pkg (some scope) name
          (if rest.isEmpty then none else some (joinSlash rest))
    | _ => ModuleRef.file spec
  else
    match splitOnSlash spec with
    | name :: rest =>
      if name = "" then ModuleRef.file spec
      else
        ModuleRef.pkg none name
          (if rest.isEmpty then none else some (joinSlash rest))
    | [] => ModuleRef.file spec

/-- The qualified package name `n` computed in `queryWorkspaceModuleRef`:
`ref.scope ? scope + "/" + name : name`. -/
def qualifiedName (scope : Option String) (name : String) : String :=
  match scope with
  | some s => s ++ "/" ++ name
  | none => name

/-- One entry of `WorkspaceInfo` from workspace-tools: package name and
absolute root path. -/
structure WorkspaceInfoEntry where
  name : String
  path : String
deriving DecidableEq, Repr

/-- `WorkspaceModuleRef` of index.ts. -/
structure WorkspaceModuleRef where
  workspace : WorkspaceInfoEntry
  path : Option String
deriving DecidableEq, Repr

/-- The workspace root with a guaranteed trailing separator, as computed
inside the file-branch predicate of `queryWorkspaceModuleRef`
(`path.normalize` is the identity on the already-normalized roots
modelled here). -/
def workspaceRootWithSep (w : WorkspaceInfoEntry) : String :=
  if strEndsWith w.path "/" then w.path else w.path ++ "/"

/-- `queryWorkspaceModuleRef(moduleName, containingFile)` of the host:
package references match a workspace by qualified name; file references
are resolved against the containing directory and matched by workspace
root ownership (with trailing separator), yielding the path remainder. -/
def queryWorkspaceModuleRef (workspaces : List WorkspaceInfoEntry)
    (moduleName containingFile : String) : Option WorkspaceModuleRef :=
  match parseModuleRef moduleName with
  | ModuleRef.pkg scope name refPath =>
    match workspaces.find? (fun w => w.name == qualifiedName scope name) with
    | some w => some ⟨w, refPath⟩
    | none => none
  | ModuleRef.file fp =>
    let p := pathResolve (dirname containingFile) fp
    match workspaces.find? (fun w => strStartsWith p (workspaceRootWithSep w)) with
    | some w =>
      some ⟨w, some (strDrop p (if strEndsWith w.path "/" then strLength w.path
                                else strLength w.path + 1))⟩
    | none => none

/-- The probe sequence of the broad search in `findModuleFile`: outer loop
over `[...platformExtensions, ""]`, inner loop over the allowed
extensions, each probe at `join(searchDir, modulePath + pext + ext)`. -/
def probeList (searchDir modulePath : String) (pexts : List String)
    (extensions : List Extension) : List (String × Extension) :=
  (pexts ++ [""]).flatMap (fun pe =>
    extensions.map (fun e => (pathJoin searchDir (modulePath ++ pe ++ e.str), e)))

/-- The broad search of `findModuleFile`: return the first existing file
of the probe sequence. -/
def broadSearch (fs : FSEnv) (searchDir modulePath : String)
    (pexts : List String) (extensions : List Extension) :
    Option ResolvedModuleFull :=
  ((probeList searchDir modulePath pexts extensions).find?
      (fun pr => fs.isFile pr.1)).map (fun pr => ⟨pr.1, pr.2⟩)

/-- `findModuleFile(searchDir, modulePath, extensions)` of the host.
Control flow of the source, in order: explicit-extension fast path (taken
only when the recognized extension is in the allowed list; both its arms
return), broad platform-by-extension search, the trimmed retry when the
recognized extension is `.js`/`.jsx` (reachable only when that extension
is not allowed), and the directory-index fallback.  The recursion of the
fallback is bounded by an explicit fuel parameter; the source recursion
deepens the search directory at every step, so any fuel at least the
recursion depth computes the source's answer. -/
def findModuleFile (fs : FSEnv) (pexts : List String) :
    Nat → String → String → List Extension → Option ResolvedModuleFull
  | 0, _, _, _ => none
  | Nat.succ fuel, searchDir, modulePath, extensions =>
    match getExtensionFromPath modulePath with
    | some extension =>
      if extensions.contains extension then
        if fs.isFile (pathJoin searchDir modulePath) then
          some ⟨pathJoin searchDir modulePath, extension⟩
        else none
      else
        match broadSearch fs searchDir modulePath pexts extensions with
        | some r => some r
        | none =>
          match
            (if extension = Extension.Js ∨ extension = Extension.Jsx then
              broadSearch fs searchDir
                (strDropRight modulePath (strLength extension.str)) pexts extensions
            else none) with
          | some r => some r
          | none =>
            if fs.isDirectory (pathJoin searchDir modulePath) then
              findModuleFile fs pexts fuel
                (pathJoin searchDir modulePath) "index" extensions
            else none
    | none =>
      match broadSearch fs searchDir modulePath pexts extensions with
      | some r => some r
      | none =>
        if fs.isDirectory (pathJoin searchDir modulePath) then
          findModuleFile fs pexts fuel
            (pathJoin searchDir modulePath) "index" extensions
        else none

/-- JavaScript truthiness of the optional module path strings tested with
`if (modulePath)` and `if (moduleRef.path)`: absent or empty strings are
falsy. -/
def optStringTruthy : Option String → Bool
  | none => false
  | some s => !(s == "")

/-- The `types` / `typings` step of `resolveModule`: consulted only when
`.d.ts` is among the allowed extensions, `types` shadowing `typings`. -/
def resolveModuleFromTypes (fs : FSEnv) (pexts : List String) (fuel : Nat)
    (packageDir : String) (extensions : List Extension) :
    Option ResolvedModuleFull :=
  if extensions.contains Extension.Dts then
    match (fs.manifest packageDir).types with
    | some t => findModuleFile fs pexts fuel packageDir t extensions
    | none =>
      match (fs.manifest packageDir).typings with
      | some t => findModuleFile fs pexts fuel packageDir t extensions
      | none => none
  else none

/-- The `main` step of `resolveModule`. -/
def resolveModuleFromMain (fs : FSEnv) (pexts : List String) (fuel : Nat)
    (packageDir : String) (extensions : List Extension) :
    Option ResolvedModuleFull :=
  match (fs.manifest packageDir).main with
  | some mn => findModuleFile fs pexts fuel packageDir mn extensions
  | none => none

/-- The entry-point branch of `resolveModule` (no module path given):
consult `types` / `typings` only when `.d.ts` is allowed, then `main`,
then fall back to an `index` search. -/
def resolveModuleEntryPoints (fs : FSEnv) (pexts : List String) (fuel : Nat)
    (packageDir : String) (extensions : List Extension) :
    Option ResolvedModuleFull :=
  match resolveModuleFromTypes fs pexts fuel packageDir extensions with
  | some m => some m
  | none =>
    match resolveModuleFromMain fs pexts fuel packageDir extensions with
    | some m => some m
    | none => findModuleFile fs pexts fuel packageDir "index" extensions

/-- `resolveModule(packageDir, modulePath, extensions)` of the host: a
truthy module path goes straight to `findModuleFile`; otherwise the
package entry points are consulted. -/
def resolveModule (fs : FSEnv) (pexts : List String) (fuel : Nat)
    (packageDir : String) (modulePath : Option String)
    (extensions : List Extension) : Option ResolvedModuleFull :=
  if optStringTruthy modulePath then
    findModuleFile fs pexts fuel packageDir (modulePath.getD "") extensions
  else resolveModuleEntryPoints fs pexts fuel packageDir extensions

/-- `resolveWorkspaceModule(moduleRef, extensions)` of the host: resolve
inside the workspace root. -/
def resolveWorkspaceModule (fs : FSEnv) (pexts : List String) (fuel : Nat)
    (moduleRef : WorkspaceModuleRef) (extensions : List Extension) :
    Option ResolvedModuleFull :=
  resolveModule fs pexts fuel moduleRef.workspace.path moduleRef.path extensions

/-- Modelled from the spec: `getMangledPackageName` of rnx-kit tools-node
(not part of the resolver sources): a scoped name becomes
`scope + "__" + name` with the `@` sigil dropped; an unscoped name is
unchanged. -/
def getMangledPackageName (scope : Option String) (name : String) : String :=
  match scope with
  | some s => (if strStartsWith s "@" then strDrop s 1 else s) ++ "__" ++ name
  | none => name

/-- First phase of `resolvePackageModule`: locate the package itself via
`findPackageDependencyDir` and resolve inside it, retrying the entry
points with `.d.ts` only when a truthy sub-path failed. -/
def resolvePackageModulePhase1 (fs : FSEnv) (pexts : List String) (fuel : Nat)
    (scope : Option String) (name : String) (refPath : Option String)
    (searchDir : String) (extensions : List Extension) :
    Option ResolvedModuleFull :=
  match fs.findPackageDependencyDir scope name searchDir with
  | some pkgDir =>
    match resolveModule fs pexts fuel pkgDir refPath extensions with
    | some m => some m
    | none =>
      if optStringTruthy refPath then
        resolveModule fs pexts fuel pkgDir none [Extension.Dts]
      else none
  | none => none

/-- The `@types` fallback of `resolvePackageModule`: locate
`@types/<mangled>` and resolve inside it, using the host's TypeScript
extension list for the sub-path attempt and `.d.ts` only for the
entry-point retry. -/
def resolvePackageModuleTypes (fs : FSEnv) (pexts : List String) (fuel : Nat)
    (scope : Option String) (name : String) (refPath : Option String)
    (searchDir : String) : Option ResolvedModuleFull :=
  match fs.findPackageDependencyDir (some "@types")
      (getMangledPackageName scope name) searchDir with
  | some typesPkgDir =>
    match resolveModule fs pexts fuel typesPkgDir refPath extensionsTypeScript with
    | some m => some m
    | none =>
      if optStringTruthy refPath then
        resolveModule fs pexts fuel typesPkgDir none [Extension.Dts]
      else none
  | none => none

/-- `resolvePackageModule(moduleRef, searchDir, extensions)` of the host:
the package itself, then the `@types` fallback. -/
def resolvePackageModule (fs : FSEnv) (pexts : List String) (fuel : Nat)
    (scope : Option String) (name : String) (refPath : Option String)
    (searchDir : String) (extensions : List Extension) :
    Option ResolvedModuleFull :=
  match resolvePackageModulePhase1 fs pexts fuel scope name refPath
      searchDir extensions with
  | some m => some m
  | none => resolvePackageModuleTypes fs pexts fuel scope name refPath searchDir

/-- `resolveFileModule(moduleRef, searchDir, extensions)` of the host. -/
def resolveFileModule (fs : FSEnv) (pexts : List String) (fuel : Nat)
    (refPath : String) (searchDir : String) (extensions : List Extension) :
    Option ResolvedModuleFull :=
  findModuleFile fs pexts fuel searchDir refPath extensions

/-- The per-specifier body of the `resolveModuleNames` loop: substitute
the `react-native` package name, try the workspace match, otherwise
dispatch on the parsed module reference. -/
def resolveOneModuleName (fs : FSEnv) (c : HostConfig)
    (workspaces : List WorkspaceInfoEntry) (fuel : Nat)
    (extensions : List Extension) (containingFile moduleName0 : String) :
    Option ResolvedModuleFull :=
  match queryWorkspaceModuleRef workspaces
      (replaceReactNativePackageName c moduleName0) containingFile with
  | some workspaceRef =>
    resolveWorkspaceModule fs c.platformExtensions fuel workspaceRef extensions
  | none =>
    match parseModuleRef (replaceReactNativePackageName c moduleName0) with
    | ModuleRef.pkg scope name refPath =>
      resolvePackageModule fs c.platformExtensions fuel scope name refPath
        (dirname containingFile) extensions
    | ModuleRef.file fp =>
      resolveFileModule fs c.platformExtensions fuel fp
        (dirname containingFile) extensions

/-- `resolveModuleNames(moduleNames, containingFile, ...)` of the host:
choose the extension list from the containing file and resolve each
specifier in order. -/
def resolveModuleNames (fs : FSEnv) (c : HostConfig)
    (workspaces : List WorkspaceInfoEntry) (fuel : Nat)
    (moduleNames : List String) (containingFile : String) :
    List (Option ResolvedModuleFull) :=
  moduleNames.map
    (resolveOneModuleName fs c workspaces fuel (extensionsFor c containingFile)
      containingFile)

/-- `ResolverLogMode` of index.ts. -/
inductive ResolverLogMode where
  | Never
  | Always
  | OnFailure
deriving DecidableEq, Repr

/-- Mutable state of a `ResolverLog` instance: its mode is fixed at
construction; `buffering` and `messages` evolve. -/
structure ResolverLogState where
  mode : ResolverLogMode
  buffering : Bool
  messages : List String
deriving DecidableEq, Repr

/-- The state produced by the `ResolverLog` constructor. -/
def ResolverLogState.init (mode : ResolverLogMode) : ResolverLogState :=
  ⟨mode, false, []⟩

/-- `reset()`: drop the buffer (when the mode is not Never) and leave the
buffering state. -/
def ResolverLogState.resetOp (s : ResolverLogState) : ResolverLogState :=
  ⟨s.mode, false, if s.mode ≠ ResolverLogMode.Never then [] else s.messages⟩

/-- `endSuccess()`: flush to the sink when the mode is Always, then
reset.  The second component lists the records written to the sink by the
operation (each record is the message buffer flushed in one write). -/
def ResolverLogState.endSuccessOp (s : ResolverLogState) :
    ResolverLogState × List (List String) :=
  if s.mode = ResolverLogMode.Always then (s.resetOp, [s.messages])
  else (s.resetOp, [])

/-- `endFailure()`: flush when the mode is OnFailure or Always, then
reset. -/
def ResolverLogState.endFailureOp (s : ResolverLogState) :
    ResolverLogState × List (List String) :=
  if s.mode = ResolverLogMode.OnFailure ∨ s.mode = ResolverLogMode.Always then
    (s.resetOp, [s.messages])
  else (s.resetOp, [])

/-- `begin()`: enter the buffering state. -/
def ResolverLogState.beginOp (s : ResolverLogState) : ResolverLogState :=
  ⟨s.mode, true, s.messages⟩

/-- `log(format, args)`: when the mode is not Never, append the formatted
message; a message logged outside a transaction implicitly ends a
successful one. -/
def ResolverLogState.logOp (s : ResolverLogState) (msg : String) :
    ResolverLogState × List (List String) :=
  if s.mode ≠ ResolverLogMode.Never then
    let s1 : ResolverLogState := ⟨s.mode, s.buffering, s.messages ++ [msg]⟩
    if !s1.buffering then s1.endSuccessOp else (s1, [])
  else (s, [])

/-- The operations a client can perform on a `ResolverLog`. -/
inductive LogOp where
  | begin
  | log (msg : String)
  | endSuccess
  | endFailure
  | reset
deriving DecidableEq, Repr

/-- One operation applied to a log state, with its sink writes. -/
def ResolverLogState.step (s : ResolverLogState) :
    LogOp → ResolverLogState × List (List String)
  | LogOp.begin => (s.beginOp, [])
  | LogOp.log msg => s.logOp msg
  | LogOp.endSuccess => s.endSuccessOp
  | LogOp.endFailure => s.endFailureOp
  | LogOp.reset => (s.resetOp, [])

/-- A sequence of operations applied to a log state, accumulating the
sink writes in order. -/
def runLog : ResolverLogState → List LogOp → ResolverLogState × List (List String)
  | s, [] => (s, [])
  | s, op :: ops =>
    let r := s.step op
    let r2 := runLog r.1 ops
    (r2.1, r.2 ++ r2.2)

/-! Concrete environments used to evaluate the definitions on specific
inputs. -/

/-- An empty package manifest. -/
def emptyManifest : PackageManifest := ⟨none, none, none⟩

/-- An empty filesystem. -/
def fsEmpty : FSEnv := ⟨[], [], fun _ => emptyManifest, fun _ _ _ => none⟩

/-- An iOS host with one extra platform extension and no optional
compiler options. -/
def cfgIos : HostConfig := ⟨"ios", ["native"], false, false, false⟩

/-- A Windows host with substitution enabled. -/
def cfgWin : HostConfig := ⟨"windows", [], false, false, false⟩

/-- An iOS host with `checkJs` enabled. -/
def cfgIosCheckJs : HostConfig := ⟨"ios", [], false, true, false⟩

/-- Filesystem with a platform-suffixed and a bare variant of the same
module. -/
def fsApp : FSEnv :=
  ⟨["/repo/src/App.ios.tsx", "/repo/src/App.ts"], [],
   fun _ => emptyManifest, fun _ _ _ => none⟩

/-- Filesystem with only a `.tsx` implementation of `./sub`. -/
def fsSubTsx : FSEnv :=
  ⟨["/repo/types/sub.tsx"], [], fun _ => emptyManifest, fun _ _ _ => none⟩

/-- Filesystem with both `./sub.d.ts` and `./sub.ts`. -/
def fsSubBoth : FSEnv :=
  ⟨["/repo/types/sub.d.ts", "/repo/types/sub.ts"], [],
   fun _ => emptyManifest, fun _ _ _ => none⟩

/-- Filesystem with only `./sub.ts`. -/
def fsSubTs : FSEnv :=
  ⟨["/repo/types/sub.ts"], [], fun _ => emptyManifest, fun _ _ _ => none⟩

/-- Filesystem with `./foo.ts` but no `./foo.js`. -/
def fsFooTs : FSEnv :=
  ⟨["/a/foo.ts"], [], fun _ => emptyManifest, fun _ _ _ => none⟩

/-- Filesystem where the package `lodash` is absent but `@types/lodash`
exists and ships a `.ts` file for the `isString` sub-path. -/
def fsTypesLodash : FSEnv :=
  ⟨["/nm/@types/lodash/isString.ts"], [],
   fun _ => emptyManifest,
   fun scope name _ =>
     if scope == some "@types" && name == "lodash" then some "/nm/@types/lodash"
     else none⟩

/-- A single workspace named `mylib`. -/
def wsMylib : List WorkspaceInfoEntry := [⟨"mylib", "/repo/packages/mylib"⟩]

/-! Helper lemmas about the search primitives. -/

theorem contains_mem {l : List Extension} {e : Extension}
    (h : l.contains e = true) : e ∈ l := by
  simpa using h

theorem broadSearch_ext_mem {fs : FSEnv} {d m : String} {pexts : List String}
    {exts : List Extension} {r : ResolvedModuleFull}
    (h : broadSearch fs d m pexts exts = some r) : r.extension ∈ exts := by
  unfold broadSearch at h
  cases hf : (probeList d m pexts exts).find? (fun pr => fs.isFile pr.1) with
  | none => rw [hf] at h; simp at h
  | some pr =>
    rw [hf] at h
    simp only [Option.map_some'] at h
    have hmem := List.mem_of_find?_eq_some hf
    unfold probeList at hmem
    rw [List.mem_flatMap] at hmem
    obtain ⟨pe, -, hin⟩ := hmem
    rw [List.mem_map] at hin
    obtain ⟨e, he, heq⟩ := hin
    injection h with h2
    subst h2
    subst heq
    exact he

theorem broadSearch_rooted {fs : FSEnv} {d m : String} {pexts : List String}
    {exts : List Extension} {r : ResolvedModuleFull}
    (h : broadSearch fs d m pexts exts = some r) :
    ∃ rest, r.resolvedFileName = d ++ "/" ++ rest := by
  unfold broadSearch at h
  cases hf : (probeList d m pexts exts).find? (fun pr => fs.isFile pr.1) with
  | none => rw [hf] at h; simp at h
  | some pr =>
    rw [hf] at h
    simp only [Option.map_some'] at h
    have hmem := List.mem_of_find?_eq_some hf
    unfold probeList at hmem
    rw [List.mem_flatMap] at hmem
    obtain ⟨pe, -, hin⟩ := hmem
    rw [List.mem_map] at hin
    obtain ⟨e, he, heq⟩ := hin
    injection h with h2
    subst h2
    subst heq
    exact ⟨_, rfl⟩

theorem findModuleFile_ext_mem {fs : FSEnv} {pexts : List String} :
    ∀ {fuel : Nat} {d m : String} {exts : List Extension} {r : ResolvedModuleFull},
      findModuleFile fs pexts fuel d m exts = some r → r.extension ∈ exts := by
  intro fuel
  induction fuel with
  | zero => intro d m exts r h; simp [findModuleFile] at h
  | succ fuel ih =>
    intro d m exts r h
    rw [findModuleFile] at h
    split at h
    · split at h
      · split at h
        · injection h with h2; subst h2
          next hc _ => exact contains_mem hc
        · exact absurd h (by simp)
      · split at h
        · next hb => injection h with h2; subst h2; exact broadSearch_ext_mem hb
        · split at h
          · next hb2 =>
            split at hb2
            · injection h with h2; subst h2; exact broadSearch_ext_mem hb2
            · simp at hb2
          · split at h
            · exact ih h
            · exact absurd h (by simp)
    · split at h
      · next hb => injection h with h2; subst h2; exact broadSearch_ext_mem hb
      · split at h
        · exact ih h
        · exact absurd h (by simp)

theorem findModuleFile_rooted {fs : FSEnv} {pexts : List String} :
    ∀ {fuel : Nat} {d m : String} {exts : List Extension} {r : ResolvedModuleFull},
      findModuleFile fs pexts fuel d m exts = some r →
      ∃ rest, r.resolvedFileName = d ++ "/" ++ rest := by
  intro fuel
  induction fuel with
  | zero => intro d m exts r h; simp [findModuleFile] at h
  | succ fuel ih =>
    intro d m exts r h
    rw [findModuleFile] at h
    split at h
    · split at h
      · split at h
        · injection h with h2; subst h2; exact ⟨_, rfl⟩
        · exact absurd h (by simp)
      · split at h
        · next hb => injection h with h2; subst h2; exact broadSearch_rooted hb
        · split at h
          · next hb2 =>
            split at hb2
            · injection h with h2; subst h2; exact broadSearch_rooted hb2
            · simp at hb2
          · split at h
            · obtain ⟨rest, hrest⟩ := ih h
              refine ⟨(if strStartsWith m "./" then strDrop m 2 else m) ++ "/" ++ rest, ?_⟩
              rw [hrest]; simp [pathJoin, String.append_assoc]
            · exact absurd h (by simp)
    · split at h
      · next hb => injection h with h2; subst h2; exact broadSearch_rooted hb
      · split at h
        · obtain ⟨rest, hrest⟩ := ih h
          refine ⟨(if strStartsWith m "./" then strDrop m 2 else m) ++ "/" ++ rest, ?_⟩
          rw [hrest]; simp [pathJoin, String.append_assoc]
        · exact absurd h (by simp)

theorem resolveModuleFromTypes_ext_mem {fs : FSEnv} {pexts : List String}
    {fuel : Nat} {packageDir : String} {exts : List Extension}
    {r : ResolvedModuleFull}
    (h : resolveModuleFromTypes fs pexts fuel packageDir exts = some r) :
    r.extension ∈ exts := by
  unfold resolveModuleFromTypes at h
  split at h
  · split at h
    · exact findModuleFile_ext_mem h
    · split at h
      · exact findModuleFile_ext_mem h
      · simp at h
  · simp at h

theorem resolveModuleFromMain_ext_mem {fs : FSEnv} {pexts : List String}
    {fuel : Nat} {packageDir : String} {exts : List Extension}
    {r : ResolvedModuleFull}
    (h : resolveModuleFromMain fs pexts fuel packageDir exts = some r) :
    r.extension ∈ exts := by
  unfold resolveModuleFromMain at h
  split at h
  · exact findModuleFile_ext_mem h
  · simp at h

theorem resolveModuleEntryPoints_ext_mem {fs : FSEnv} {pexts : List String}
    {fuel : Nat} {packageDir : String} {exts : List Extension}
    {r : ResolvedModuleFull}
    (h : resolveModuleEntryPoints fs pexts fuel packageDir exts = some r) :
    r.extension ∈ exts := by
  unfold resolveModuleEntryPoints at h
  split at h
  · next hm => injection h with h2; subst h2; exact resolveModuleFromTypes_ext_mem hm
  · split at h
    · next hm => injection h with h2; subst h2; exact resolveModuleFromMain_ext_mem hm
    · exact findModuleFile_ext_mem h

theorem resolveModule_ext_mem {fs : FSEnv} {pexts : List String}
    {fuel : Nat} {packageDir : String} {mp : Option String}
    {exts : List Extension} {r : ResolvedModuleFull}
    (h : resolveModule fs pexts fuel packageDir mp exts = some r) :
    r.extension ∈ exts := by
  unfold resolveModule at h
  split at h
  · exact findModuleFile_ext_mem h
  · exact resolveModuleEntryPoints_ext_mem h

theorem resolveModuleFromTypes_rooted {fs : FSEnv} {pexts : List String}
    {fuel : Nat} {packageDir : String} {exts : List Extension}
    {r : ResolvedModuleFull}
    (h : resolveModuleFromTypes fs pexts fuel packageDir exts = some r) :
    ∃ rest, r.resolvedFileName = packageDir ++ "/" ++ rest := by
  unfold resolveModuleFromTypes at h
  split at h
  · split at h
    · exact findModuleFile_rooted h
    · split at h
      · exact findModuleFile_rooted h
      · simp at h
  · simp at h

theorem resolveModuleFromMain_rooted {fs : FSEnv} {pexts : List String}
    {fuel : Nat} {packageDir : String} {exts : List Extension}
    {r : ResolvedModuleFull}
    (h : resolveModuleFromMain fs pexts fuel packageDir exts = some r) :
    ∃ rest, r.resolvedFileName = packageDir ++ "/" ++ rest := by
  unfold resolveModuleFromMain at h
  split at h
  · exact findModuleFile_rooted h
  · simp at h

theorem resolveModuleEntryPoints_rooted {fs : FSEnv} {pexts : List String}
    {fuel : Nat} {packageDir : String} {exts : List Extension}
    {r : ResolvedModuleFull}
    (h : resolveModuleEntryPoints fs pexts fuel packageDir exts = some r) :
    ∃ rest, r.resolvedFileName = packageDir ++ "/" ++ rest := by
  unfold resolveModuleEntryPoints at h
  split at h
  · next hm => injection h with h2; subst h2; exact resolveModuleFromTypes_rooted hm
  · split at h
    · next hm => injection h with h2; subst h2; exact resolveModuleFromMain_rooted hm
    · exact findModuleFile_rooted h

theorem resolveModule_rooted {fs : FSEnv} {pexts : List String}
    {fuel : Nat} {packageDir : String} {mp : Option String}
    {exts : List Extension} {r : ResolvedModuleFull}
    (h : resolveModule fs pexts fuel packageDir mp exts = some r) :
    ∃ rest, r.resolvedFileName = packageDir ++ "/" ++ rest := by
  unfold resolveModule at h
  split at h
  · exact findModuleFile_rooted h
  · exact resolveModuleEntryPoints_rooted h

theorem resolvePackageModuleTypes_ext_mem {fs : FSEnv} {pexts : List String}
    {fuel : Nat} {scope : Option String} {name : String}
    {refPath : Option String} {searchDir : String} {r : ResolvedModuleFull}
    (h : resolvePackageModuleTypes fs pexts fuel scope name refPath searchDir
          = some r) :
    r.extension ∈ extensionsTypeScript := by
  unfold resolvePackageModuleTypes at h
  split at h
  · split at h
    · next hm => injection h with h2; subst h2; exact resolveModule_ext_mem hm
    · split at h
      · have := resolveModule_ext_mem h
        simp only [List.mem_singleton] at this
        rw [this]; simp [extensionsTypeScript]
      · simp at h
  · simp at h

theorem resolvePackageModulePhase1_ext_mem {fs : FSEnv} {pexts : List String}
    {fuel : Nat} {scope : Option String} {name : String}
    {refPath : Option String} {searchDir : String} {exts : List Extension}
    {r : ResolvedModuleFull}
    (h : resolvePackageModulePhase1 fs pexts fuel scope name refPath searchDir
          exts = some r) :
    r.extension ∈ exts ∨ r.extension = Extension.Dts := by
  unfold resolvePackageModulePhase1 at h
  split at h
  · split at h
    · next hm => injection h with h2; subst h2; exact Or.inl (resolveModule_ext_mem hm)
    · split at h
      · have := resolveModule_ext_mem h
        simp only [List.mem_singleton] at this
        exact Or.inr this
      · simp at h
  · simp at h

theorem resolveOneModuleName_ext_mem {fs : FSEnv} {c : HostConfig}
    {ws : List WorkspaceInfoEntry} {fuel : Nat} {exts : List Extension}
    {f name : String} {r : ResolvedModuleFull}
    (h : resolveOneModuleName fs c ws fuel exts f name = some r) :
    r.extension ∈ exts ∨ r.extension ∈ extensionsTypeScript := by
  unfold resolveOneModuleName at h
  split at h
  · exact Or.inl (resolveModule_ext_mem h)
  · split at h
    · unfold resolvePackageModule at h
      split at h
      · next hm =>
        injection h with h2; subst h2
        rcases resolvePackageModulePhase1_ext_mem hm with h3 | h3
        · exact Or.inl h3
        · rw [h3]; right; simp [extensionsTypeScript]
      · exact Or.inr (resolvePackageModuleTypes_ext_mem h)
    · exact Or.inl (findModuleFile_ext_mem h)

/-! Helper lemmas about the trace log state machine. -/

theorem endSuccessOp_mode (s : ResolverLogState) :
    s.endSuccessOp.1.mode = s.mode := by
  unfold ResolverLogState.endSuccessOp ResolverLogState.resetOp
  split <;> rfl

theorem endFailureOp_mode (s : ResolverLogState) :
    s.endFailureOp.1.mode = s.mode := by
  unfold ResolverLogState.endFailureOp ResolverLogState.resetOp
  split <;> rfl

theorem step_mode (s : ResolverLogState) (op : LogOp) :
    (s.step op).1.mode = s.mode := by
  cases op with
  | begin => rfl
  | reset => rfl
  | endSuccess => exact endSuccessOp_mode s
  | endFailure => exact endFailureOp_mode s
  | log msg =>
    simp only [ResolverLogState.step, ResolverLogState.logOp]
    split
    · split
      · exact endSuccessOp_mode _
      · rfl
    · rfl

theorem step_never {s : ResolverLogState}
    (hs : s.mode = ResolverLogMode.Never) (op : LogOp) :
    (s.step op).1.mode = ResolverLogMode.Never ∧ (s.step op).2 = [] ∧
    (s.step op).1.messages = s.messages := by
  cases op <;>
    simp [ResolverLogState.step, ResolverLogState.beginOp,
      ResolverLogState.logOp, ResolverLogState.endSuccessOp,
      ResolverLogState.endFailureOp, ResolverLogState.resetOp, hs]

theorem runLog_never {ops : List LogOp} :
    ∀ {s : ResolverLogState}, s.mode = ResolverLogMode.Never →
      (runLog s ops).2 = [] := by
  induction ops with
  | nil => intro s hs; simp [runLog]
  | cons op ops ih =>
    intro s hs
    obtain ⟨h1, h2, -⟩ := step_never hs op
    simp [runLog, h2, ih h1]

theorem runLog_never_state {ops : List LogOp} :
    ∀ {s : ResolverLogState}, s.mode = ResolverLogMode.Never →
      s.messages = [] →
      (runLog s ops).1.mode = ResolverLogMode.Never ∧
      (runLog s ops).1.messages = [] := by
  induction ops with
  | nil => intro s hs hm; simp [runLog, hs, hm]
  | cons op ops ih =>
    intro s hs hm
    obtain ⟨h1, -, h3⟩ := step_never hs op
    simp only [runLog]
    exact ih h1 (h3.trans hm)

theorem runLog_mode (ops : List LogOp) :
    ∀ s : ResolverLogState, (runLog s ops).1.mode = s.mode := by
  induction ops with
  | nil => intro s; simp [runLog]
  | cons op ops ih =>
    intro s
    simp only [runLog]
    rw [ih]
    exact step_mode s op

theorem runLog_append (l1 l2 : List LogOp) :
    ∀ s : ResolverLogState,
      runLog s (l1 ++ l2) =
        ((runLog (runLog s l1).1 l2).1,
         (runLog s l1).2 ++ (runLog (runLog s l1).1 l2).2) := by
  induction l1 with
  | nil => intro s; simp [runLog]
  | cons op l1 ih =>
    intro s
    simp [runLog, ih]

/-! Claim theorems. -/

/-- C7: the trace log flushes to the sink on `endSuccess` exactly in mode
Always, on `endFailure` exactly in modes Always and OnFailure; with mode
Never no sequence of operations ever writes the sink; and after an
`endSuccess`, `endFailure` or `reset` the buffer is empty and the log is
back in the non-buffering (idle) state. -/
theorem resolverLog_policy (s : ResolverLogState) (mode : ResolverLogMode)
    (ops : List LogOp) (op : LogOp) :
    (s.endSuccessOp.2 ≠ [] ↔ s.mode = ResolverLogMode.Always) ∧
    (s.endFailureOp.2 ≠ [] ↔
      (s.mode = ResolverLogMode.OnFailure ∨ s.mode = ResolverLogMode.Always)) ∧
    ((runLog (ResolverLogState.init ResolverLogMode.Never) ops).2 = []) ∧
    (op = LogOp.endSuccess ∨ op = LogOp.endFailure ∨ op = LogOp.reset →
      (runLog (ResolverLogState.init mode) (ops ++ [op])).1.messages = [] ∧
      (runLog (ResolverLogState.init mode) (ops ++ [op])).1.buffering = false) := by
  refine ⟨?_, ?_, ?_, ?_⟩
  · unfold ResolverLogState.endSuccessOp
    split <;> simp_all
  · unfold ResolverLogState.endFailureOp
    split <;> simp_all
  · exact runLog_never rfl
  · intro hop
    rw [runLog_append]
    set s1 := (runLog (ResolverLogState.init mode) ops).1 with hs1
    have hmode : s1.mode = mode := by
      rw [hs1, runLog_mode]; rfl
    have hmsg : s1.mode = ResolverLogMode.Never → s1.messages = [] := by
      intro hnever
      have hmn : mode = ResolverLogMode.Never := by rw [← hmode]; exact hnever
      have h2 := @runLog_never_state ops (ResolverLogState.init mode)
        (by simp [ResolverLogState.init, hmn]) rfl
      exact h2.2
    have hdone : ∀ s' : ResolverLogState,
        (s'.mode = ResolverLogMode.Never → s'.messages = []) →
        ∀ op2, op2 = LogOp.endSuccess ∨ op2 = LogOp.endFailure ∨ op2 = LogOp.reset →
        (s'.step op2).1.messages = [] ∧ (s'.step op2).1.buffering = false := by
      intro s' hmsg2 op2 hop2
      have hreset : (s'.resetOp).messages = [] ∧ (s'.resetOp).buffering = false := by
        unfold ResolverLogState.resetOp
        refine ⟨?_, rfl⟩
        split
        · rfl
        · next hnn =>
          simp only [ne_eq, not_not] at hnn
          exact hmsg2 hnn
      rcases hop2 with h | h | h <;> subst h
      · simp only [ResolverLogState.step, ResolverLogState.endSuccessOp]
        split <;> exact hreset
      · simp only [ResolverLogState.step, ResolverLogState.endFailureOp]
        split <;> exact hreset
      · exact hreset
    have := hdone s1 hmsg op hop
    simpa [runLog] using this

/-- Witness for the C7 theorem: a buffered failing transaction in
OnFailure mode ends with an empty buffer in the idle state. -/
theorem resolverLog_policy_witness :
    (LogOp.endFailure = LogOp.endSuccess ∨ LogOp.endFailure = LogOp.endFailure ∨
      LogOp.endFailure = LogOp.reset) ∧
    ((runLog (ResolverLogState.init ResolverLogMode.OnFailure)
        ([LogOp.begin, LogOp.log "m"] ++ [LogOp.endFailure])).1.messages = [] ∧
     (runLog (ResolverLogState.init ResolverLogMode.OnFailure)
        ([LogOp.begin, LogOp.log "m"] ++ [LogOp.endFailure])).1.buffering = false) :=
  ⟨Or.inr (Or.inl rfl),
   (resolverLog_policy (ResolverLogState.init ResolverLogMode.Never)
      ResolverLogMode.OnFailure [LogOp.begin, LogOp.log "m"]
      LogOp.endFailure).2.2.2 (Or.inr (Or.inl rfl))⟩

/-- C1: when the module path does not end with an allowed explicit
extension, `findModuleFile` searches the platform-extension
cross-product — platform suffixes in the outer loop, `"." + platform`
first, the extra suffixes next and the empty suffix last, with the
allowed extensions in the inner loop in the order given — returning the
first existing file; consequently, whenever a `"." + platform`-suffixed
variant exists for some allowed extension, the returned file is
platform-suffixed (the bare variant never wins). -/
theorem findModuleFile_platform_priority (fs : FSEnv) (c : HostConfig)
    (fuel : Nat) (d m : String) (exts : List Extension)
    (hfast : (getExtensionFromPath m).all (fun e => !(exts.contains e)) = true) :
    (∀ r, broadSearch fs d m c.platformExtensions exts = some r →
      findModuleFile fs c.platformExtensions (fuel + 1) d m exts = some r) ∧
    (∀ e, e ∈ exts →
      fs.isFile (pathJoin d (m ++ ("." ++ c.platform) ++ e.str)) = true →
      ∃ e2, e2 ∈ exts ∧
        findModuleFile fs c.platformExtensions (fuel + 1) d m exts =
          some ⟨pathJoin d (m ++ ("." ++ c.platform) ++ e2.str), e2⟩) := by
  have part1 : ∀ r, broadSearch fs d m c.platformExtensions exts = some r →
      findModuleFile fs c.platformExtensions (fuel + 1) d m exts = some r := by
    intro r hb
    rw [findModuleFile]
    cases hx : getExtensionFromPath m with
    | none => simp only [hx, hb]
    | some e =>
      rw [hx] at hfast
      simp only [Option.all_some, Bool.not_eq_true'] at hfast
      simp only [hx, hfast, Bool.false_eq_true, if_false, hb]
  refine ⟨part1, ?_⟩
  intro e he hfile
  have hpe : c.platformExtensions =
      ("." ++ c.platform) :: c.platformExtensionsExtra.map (fun x => "." ++ x) := by
    simp [HostConfig.platformExtensions]
  have hsplit : probeList d m c.platformExtensions exts =
      exts.map (fun x => (pathJoin d (m ++ ("." ++ c.platform) ++ x.str), x)) ++
      (c.platformExtensionsExtra.map (fun x => "." ++ x) ++ [""]).flatMap
        (fun pe => exts.map (fun x => (pathJoin d (m ++ pe ++ x.str), x))) := by
    rw [probeList, hpe, List.cons_append, List.flatMap_cons]
  have hsome :
      ((exts.map (fun x => (pathJoin d (m ++ ("." ++ c.platform) ++ x.str), x))).find?
        (fun pr => fs.isFile pr.1)).isSome := by
    rw [List.find?_isSome]
    exact ⟨(pathJoin d (m ++ ("." ++ c.platform) ++ e.str), e),
      List.mem_map.2 ⟨e, he, rfl⟩, hfile⟩
  obtain ⟨pr, hpr⟩ := Option.isSome_iff_exists.1 hsome
  have hmem := List.mem_of_find?_eq_some hpr
  rw [List.mem_map] at hmem
  obtain ⟨e2, he2, heq2⟩ := hmem
  have hfind : (probeList d m c.platformExtensions exts).find?
      (fun pr => fs.isFile pr.1) = some pr := by
    rw [hsplit, List.find?_append, hpr]
    rfl
  have hbroad : broadSearch fs d m c.platformExtensions exts =
      some ⟨pr.1, pr.2⟩ := by
    rw [broadSearch, hfind]
    rfl
  refine ⟨e2, he2, ?_⟩
  rw [part1 ⟨pr.1, pr.2⟩ hbroad, ← heq2]

/-- Witness for the C1 theorem: with platform ios and both
`App.ios.tsx` and `App.ts` on disk, the platform-suffixed file wins. -/
theorem findModuleFile_platform_priority_witness :
    ((getExtensionFromPath "./App").all
      (fun e => !(extensionsTypeScript.contains e)) = true) ∧
    (Extension.Tsx ∈ extensionsTypeScript ∧
     fsApp.isFile (pathJoin "/repo/src"
       ("./App" ++ ("." ++ cfgIos.platform) ++ Extension.Tsx.str)) = true) ∧
    (∃ e2, e2 ∈ extensionsTypeScript ∧
      findModuleFile fsApp cfgIos.platformExtensions (3 + 1) "/repo/src" "./App"
          extensionsTypeScript =
        some ⟨pathJoin "/repo/src"
          ("./App" ++ ("." ++ cfgIos.platform) ++ e2.str), e2⟩) :=
  ⟨by decide, ⟨by decide, by decide⟩,
   (findModuleFile_platform_priority fsApp cfgIos 3 "/repo/src" "./App"
      extensionsTypeScript (by decide)).2 Extension.Tsx (by decide) (by decide)⟩

/-- C8: `resolveModuleNames` returns exactly one entry per input
specifier, and the entry at index `k` is the resolution outcome of the
specifier at index `k`. -/
theorem resolveModuleNames_length_index (fs : FSEnv) (c : HostConfig)
    (ws : List WorkspaceInfoEntry) (fuel : Nat) (names : List String)
    (f : String) :
    (resolveModuleNames fs c ws fuel names f).length = names.length ∧
    ∀ k : Nat, (resolveModuleNames fs c ws fuel names f)[k]? =
      (names[k]?).map
        (resolveOneModuleName fs c ws fuel (extensionsFor c f) f) := by
  constructor
  · simp [resolveModuleNames]
  · intro k
    simp [resolveModuleNames, List.getElem?_map]

/-- C2 counterexample: the code has no token-boundary check after the
`react-native` prefix, so `react-native-foo` is rewritten on a mapped
platform instead of being returned unchanged. -/
theorem replaceReactNativePackageName_boundary_cex :
    replaceReactNativePackageName cfgWin "react-native-foo" =
      "react-native-windows-foo" ∧
    createReactNativePackageNameReplacer "windows" true "react-native-foo" =
      "react-native-windows-foo" ∧
    ("react-native-windows-foo" ≠ "react-native-foo") := by
  refine ⟨by decide, by decide, by decide⟩

/-- C2 amended: the substitution returns the specifier unchanged when
disabled, when the platform is unmapped, or when the specifier does not
start with `react-native`; otherwise it rewrites the prefix for every
specifier starting with `react-native` — with no requirement on the
remainder, so `react-native-foo` is rewritten as well.  The standalone
replacer of react-native-package-name.ts behaves identically with its
`enabled` flag. -/
theorem replaceReactNativePackageName_spec (c : HostConfig) (m : String)
    (platform : String) (enabled : Bool) :
    (c.disableReactNativePackageSubstitution = true →
      replaceReactNativePackageName c m = m) ∧
    (getReactNativePackageName c.platform = none →
      replaceReactNativePackageName c m = m) ∧
    (strStartsWith m "react-native" = false →
      replaceReactNativePackageName c m = m) ∧
    (∀ pk, c.disableReactNativePackageSubstitution = false →
      getReactNativePackageName c.platform = some pk →
      strStartsWith m "react-native" = true →
      replaceReactNativePackageName c m =
        pk ++ strDrop m (strLength "react-native")) ∧
    (enabled = false → createReactNativePackageNameReplacer platform enabled m = m) ∧
    (getReactNativePackageName platform = none →
      createReactNativePackageNameReplacer platform enabled m = m) ∧
    (strStartsWith m "react-native" = false →
      createReactNativePackageNameReplacer platform enabled m = m) ∧
    (∀ pk, getReactNativePackageName platform = some pk → enabled = true →
      strStartsWith m "react-native" = true →
      createReactNativePackageNameReplacer platform enabled m =
        pk ++ strDrop m (strLength "react-native")) := by
  refine ⟨?_, ?_, ?_, ?_, ?_, ?_, ?_, ?_⟩
  · intro h; unfold replaceReactNativePackageName; rw [if_pos h]
  · intro h
    unfold replaceReactNativePackageName
    rw [h]
    split <;> rfl
  · intro h
    unfold replaceReactNativePackageName
    split
    · rfl
    · split
      · rfl
      · rw [h]
        simp
  · intro pk hd hm hs
    unfold replaceReactNativePackageName
    rw [hm, hd, hs]
    simp
  · intro h
    unfold createReactNativePackageNameReplacer
    subst h
    split <;> simp
  · intro h
    unfold createReactNativePackageNameReplacer
    rw [h]
  · intro h
    unfold createReactNativePackageNameReplacer
    split
    · rfl
    · rw [h]
      simp
  · intro pk hp he hs
    unfold createReactNativePackageNameReplacer
    rw [hp, he, hs]
    simp

/-- Witness for the C2 amended theorem: on Windows with substitution
enabled, `react-native/x` becomes `react-native-windows/x`. -/
theorem replaceReactNativePackageName_spec_witness :
    (cfgWin.disableReactNativePackageSubstitution = false ∧
     getReactNativePackageName cfgWin.platform = some "react-native-windows" ∧
     strStartsWith "react-native/x" "react-native" = true) ∧
    replaceReactNativePackageName cfgWin "react-native/x" =
      "react-native-windows" ++ strDrop "react-native/x" (strLength "react-native") :=
  ⟨⟨by decide, by decide, by decide⟩,
   (replaceReactNativePackageName_spec cfgWin "react-native/x" "windows"
      true).2.2.2.1 "react-native-windows" (by decide) (by decide) (by decide)⟩

/-- C3 counterexample: from a `.d.ts` containing file the resolver can
return a `.tsx` file, whose extension lies outside {.d.ts, .ts}. -/
theorem resolveModuleNames_dts_gate_cex :
    hasExtension "/repo/types/index.d.ts" Extension.Dts = true ∧
    resolveModuleNames fsSubTsx cfgIos [] 4 ["./sub"] "/repo/types/index.d.ts" =
      [some ⟨"/repo/types/sub.tsx", Extension.Tsx⟩] ∧
    (Extension.Tsx ≠ Extension.Dts ∧ Extension.Tsx ≠ Extension.Ts) := by
  refine ⟨by decide, by decide, by decide⟩

/-- C3 amended: from a containing file ending in `.d.ts`, every
successful resolution has extension in the TypeScript list
[.ts, .tsx, .d.ts] (not only {.d.ts, .ts}). -/
theorem resolveModuleNames_dts_gate (fs : FSEnv) (c : HostConfig)
    (ws : List WorkspaceInfoEntry) (fuel : Nat) (names : List String)
    (f : String) (r : ResolvedModuleFull)
    (hf : hasExtension f Extension.Dts = true)
    (hr : some r ∈ resolveModuleNames fs c ws fuel names f) :
    r.extension ∈ extensionsTypeScript := by
  unfold resolveModuleNames at hr
  rw [List.mem_map] at hr
  obtain ⟨name, -, hres⟩ := hr
  have hexts : extensionsFor c f = extensionsTypeScript := by
    unfold extensionsFor
    rw [hf]
    rfl
  rw [hexts] at hres
  rcases resolveOneModuleName_ext_mem hres with h | h <;> exact h

/-- Witness for the C3 amended theorem at the `.tsx` resolution. -/
theorem resolveModuleNames_dts_gate_witness :
    (hasExtension "/repo/types/index.d.ts" Extension.Dts = true ∧
     some ⟨"/repo/types/sub.tsx", Extension.Tsx⟩ ∈
       resolveModuleNames fsSubTsx cfgIos [] 4 ["./sub"]
         "/repo/types/index.d.ts") ∧
    (⟨"/repo/types/sub.tsx", Extension.Tsx⟩ :
      ResolvedModuleFull).extension ∈ extensionsTypeScript :=
  ⟨⟨by decide, by decide⟩,
   resolveModuleNames_dts_gate fsSubTsx cfgIos [] 4 ["./sub"]
     "/repo/types/index.d.ts" ⟨"/repo/types/sub.tsx", Extension.Tsx⟩
     (by decide) (by decide)⟩

/-- C4 counterexample: the first `@types` attempt runs with the
TypeScript extension list, so a `.ts` file inside the `@types` package is
returned — not a `.d.ts` one. -/
theorem resolvePackageModule_types_cex :
    fsTypesLodash.findPackageDependencyDir none "lodash" "/repo/app" = none ∧
    resolvePackageModule fsTypesLodash cfgIos.platformExtensions 4 none
      "lodash" (some "isString") "/repo/app" cfgIos.extensionsAll =
      some ⟨"/nm/@types/lodash/isString.ts", Extension.Ts⟩ ∧
    Extension.Ts ≠ Extension.Dts := by
  refine ⟨by decide, by decide, by decide⟩

/-- C4 amended: when the package itself fails to resolve, the result is
the `@types` fallback, and every module it returns has extension in
[.ts, .tsx, .d.ts] — the sub-path attempt uses the TypeScript list and
only the entry-point retry is restricted to [.d.ts]. -/
theorem resolvePackageModule_types_fallback (fs : FSEnv) (pexts : List String)
    (fuel : Nat) (scope : Option String) (name : String)
    (refPath : Option String) (searchDir : String) (exts : List Extension)
    (h1 : resolvePackageModulePhase1 fs pexts fuel scope name refPath searchDir
          exts = none) :
    resolvePackageModule fs pexts fuel scope name refPath searchDir exts =
      resolvePackageModuleTypes fs pexts fuel scope name refPath searchDir ∧
    (∀ r, resolvePackageModuleTypes fs pexts fuel scope name refPath searchDir
        = some r → r.extension ∈ extensionsTypeScript) := by
  constructor
  · unfold resolvePackageModule
    rw [h1]
  · intro r hr
    exact resolvePackageModuleTypes_ext_mem hr

/-- Witness for the C4 amended theorem on the `@types/lodash`
environment. -/
theorem resolvePackageModule_types_fallback_witness :
    (resolvePackageModulePhase1 fsTypesLodash cfgIos.platformExtensions 4 none
      "lodash" (some "isString") "/repo/app" cfgIos.extensionsAll = none) ∧
    resolvePackageModule fsTypesLodash cfgIos.platformExtensions 4 none
      "lodash" (some "isString") "/repo/app" cfgIos.extensionsAll =
      resolvePackageModuleTypes fsTypesLodash cfgIos.platformExtensions 4 none
        "lodash" (some "isString") "/repo/app" :=
  ⟨by decide,
   (resolvePackageModule_types_fallback fsTypesLodash
      cfgIos.platformExtensions 4 none "lodash" (some "isString") "/repo/app"
      cfgIos.extensionsAll (by decide)).1⟩

/-- C5 counterexample: with `checkJs` on, `.js` is in the allowed list;
for `./foo.js` with no such file on disk the search ends with none even
though `./foo.ts` exists — it does not continue with the trimmed path. -/
theorem findModuleFile_js_fastpath_cex :
    cfgIosCheckJs.extensionsAll.contains Extension.Js = true ∧
    getExtensionFromPath "./foo.js" = some Extension.Js ∧
    fsFooTs.isFile (pathJoin "/a" "./foo.js") = false ∧
    fsFooTs.isFile "/a/foo.ts" = true ∧
    findModuleFile fsFooTs cfgIosCheckJs.platformExtensions 4 "/a" "./foo.js"
      cfgIosCheckJs.extensionsAll = none := by
  refine ⟨by decide, by decide, by decide, by decide, by decide⟩

/-- C5 amended: a module path ending in an explicit allowed extension —
`.js` and `.jsx` included — ends the search at the fast path (file hit or
none); the trimmed-path retry runs only when the explicit `.js`/`.jsx`
extension is NOT in the allowed list, in which case a broad-search miss
on the full path is followed by the broad search on the trimmed path, so
`./foo.js` resolves to `./foo.ts` only in that configuration. -/
theorem findModuleFile_explicit_ext (fs : FSEnv) (pexts : List String)
    (fuel : Nat) (d m : String) (exts : List Extension) :
    (∀ e, getExtensionFromPath m = some e → exts.contains e = true →
      findModuleFile fs pexts (fuel + 1) d m exts =
        (if fs.isFile (pathJoin d m) then some ⟨pathJoin d m, e⟩ else none)) ∧
    (∀ e r, getExtensionFromPath m = some e → exts.contains e = false →
      (e = Extension.Js ∨ e = Extension.Jsx) →
      broadSearch fs d m pexts exts = none →
      broadSearch fs d (strDropRight m (strLength e.str)) pexts exts = some r →
      findModuleFile fs pexts (fuel + 1) d m exts = some r) := by
  constructor
  · intro e he hc
    rw [findModuleFile]
    simp only [he, hc, if_true]
  · intro e r he hc hjs hb hr
    rw [findModuleFile]
    simp only [he, hc, Bool.false_eq_true, if_false, hb, if_pos hjs, hr]

/-- Witness for the C5 amended theorem: with `.js` not allowed, the
trimmed retry resolves `./foo.js` to `./foo.ts`. -/
theorem findModuleFile_explicit_ext_witness :
    (getExtensionFromPath "./foo.js" = some Extension.Js ∧
     extensionsTypeScript.contains Extension.Js = false ∧
     broadSearch fsFooTs "/a" "./foo.js" cfgIos.platformExtensions
       extensionsTypeScript = none ∧
     broadSearch fsFooTs "/a" (strDropRight "./foo.js" (strLength Extension.Js.str))
       cfgIos.platformExtensions
       extensionsTypeScript = some ⟨"/a/foo.ts", Extension.Ts⟩) ∧
    findModuleFile fsFooTs cfgIos.platformExtensions (3 + 1) "/a" "./foo.js"
      extensionsTypeScript = some ⟨"/a/foo.ts", Extension.Ts⟩ :=
  ⟨⟨by decide, by decide, by decide, by decide⟩,
   (findModuleFile_explicit_ext fsFooTs cfgIos.platformExtensions 3 "/a"
      "./foo.js" extensionsTypeScript).2 Extension.Js
     ⟨"/a/foo.ts", Extension.Ts⟩ (by decide) (by decide) (Or.inl rfl)
     (by decide) (by decide)⟩

/-- C6 counterexample: with both `./sub.d.ts` and `./sub.ts` present and
no platform variants, resolution from a `.d.ts` containing file returns
`./sub.ts`, not `./sub.d.ts` as claimed. -/
theorem resolveModuleNames_dts_sub_cex :
    fsSubBoth.isFile "/repo/types/sub.d.ts" = true ∧
    fsSubBoth.isFile "/repo/types/sub.ts" = true ∧
    resolveModuleNames fsSubBoth cfgIos [] 4 ["./sub"]
      "/repo/types/index.d.ts" =
      [some ⟨"/repo/types/sub.ts", Extension.Ts⟩] ∧
    ("/repo/types/sub.ts" ≠ "/repo/types/sub.d.ts") := by
  refine ⟨by decide, by decide, by decide, by decide⟩

/-- C6 amended: from a `.d.ts` containing file the specifier `./sub`
resolves to `./sub.ts` both when `./sub.d.ts` and `./sub.ts` are present
(`.ts` precedes `.d.ts` in the allowed list [.ts, .tsx, .d.ts]) and when
only `./sub.ts` exists. -/
theorem resolveModuleNames_dts_sub_amended :
    resolveModuleNames fsSubBoth cfgIos [] 4 ["./sub"]
      "/repo/types/index.d.ts" =
      [some ⟨"/repo/types/sub.ts", Extension.Ts⟩] ∧
    resolveModuleNames fsSubTs cfgIos [] 4 ["./sub"]
      "/repo/types/index.d.ts" =
      [some ⟨"/repo/types/sub.ts", Extension.Ts⟩] := by
  refine ⟨by decide, by decide⟩

/-- C9: a specifier whose substituted form parses as a package reference
whose qualified name matches a workspace resolves through the workspace
branch alone — the external node_modules path is never consulted — and
any successful result lies under that workspace root. -/
theorem resolveModuleNames_workspace_precedence (fs : FSEnv) (c : HostConfig)
    (ws : List WorkspaceInfoEntry) (fuel : Nat) (exts : List Extension)
    (f name : String) (scope : Option String) (pname : String)
    (sub : Option String) (w : WorkspaceInfoEntry)
    (hparse : parseModuleRef (replaceReactNativePackageName c name) =
      ModuleRef.pkg scope pname sub)
    (hfind : ws.find? (fun w2 => w2.name == qualifiedName scope pname) =
      some w) :
    resolveOneModuleName fs c ws fuel exts f name =
      resolveWorkspaceModule fs c.platformExtensions fuel ⟨w, sub⟩ exts ∧
    (∀ r, resolveOneModuleName fs c ws fuel exts f name = some r →
      ∃ rest, r.resolvedFileName = w.path ++ "/" ++ rest) := by
  have hq : queryWorkspaceModuleRef ws (replaceReactNativePackageName c name)
      f = some ⟨w, sub⟩ := by
    unfold queryWorkspaceModuleRef
    simp only [hparse, hfind]
  have h1 : resolveOneModuleName fs c ws fuel exts f name =
      resolveWorkspaceModule fs c.platformExtensions fuel ⟨w, sub⟩ exts := by
    unfold resolveOneModuleName
    simp only [hq]
  refine ⟨h1, ?_⟩
  intro r hr
  rw [h1] at hr
  exact resolveModule_rooted hr

/-- Witness for the C9 theorem: the specifier `mylib` matches the
workspace of the same name. -/
theorem resolveModuleNames_workspace_precedence_witness :
    (parseModuleRef (replaceReactNativePackageName cfgIos "mylib") =
       ModuleRef.pkg none "mylib" none ∧
     wsMylib.find? (fun w2 => w2.name == qualifiedName none "mylib") =
       some ⟨"mylib", "/repo/packages/mylib"⟩) ∧
    resolveOneModuleName fsEmpty cfgIos wsMylib 4
        (extensionsFor cfgIos "/repo/app/x.ts") "/repo/app/x.ts" "mylib" =
      resolveWorkspaceModule fsEmpty cfgIos.platformExtensions 4
        ⟨⟨"mylib", "/repo/packages/mylib"⟩, none⟩
        (extensionsFor cfgIos "/repo/app/x.ts") :=
  ⟨⟨by decide, by decide⟩,
   (resolveModuleNames_workspace_precedence fsEmpty cfgIos wsMylib 4
      (extensionsFor cfgIos "/repo/app/x.ts") "/repo/app/x.ts" "mylib" none
      "mylib" none ⟨"mylib", "/repo/packages/mylib"⟩ (by decide)
      (by decide)).1⟩

/-- C10: a workspace-matched specifier whose in-workspace resolution
fails yields none in the `resolveModuleNames` output — no external or
`@types` fallback runs for it. -/
theorem resolveModuleNames_workspace_no_fallback (fs : FSEnv) (c : HostConfig)
    (ws : List WorkspaceInfoEntry) (fuel : Nat) (f name : String)
    (wref : WorkspaceModuleRef)
    (hq : queryWorkspaceModuleRef ws (replaceReactNativePackageName c name) f =
      some wref)
    (hfail : resolveWorkspaceModule fs c.platformExtensions fuel wref
      (extensionsFor c f) = none) :
    ∀ (names : List String) (k : Nat), names[k]? = some name →
      (resolveModuleNames fs c ws fuel names f)[k]? = some none := by
  intro names k hk
  unfold resolveModuleNames
  rw [List.getElem?_map, hk]
  simp only [Option.map_some']
  unfold resolveOneModuleName
  simp only [hq, hfail]

/-- Witness for the C10 theorem: the workspace-matched `mylib` fails to
resolve on an empty filesystem and produces none with no fallback. -/
theorem resolveModuleNames_workspace_no_fallback_witness :
    (queryWorkspaceModuleRef wsMylib
       (replaceReactNativePackageName cfgIos "mylib") "/repo/app/x.ts" =
       some ⟨⟨"mylib", "/repo/packages/mylib"⟩, none⟩ ∧
     resolveWorkspaceModule fsEmpty cfgIos.platformExtensions 4
       ⟨⟨"mylib", "/repo/packages/mylib"⟩, none⟩
       (extensionsFor cfgIos "/repo/app/x.ts") = none ∧
     (["mylib"] : List String)[0]? = some "mylib") ∧
    (resolveModuleNames fsEmpty cfgIos wsMylib 4 ["mylib"]
      "/repo/app/x.ts")[0]? = some none :=
  ⟨⟨by decide, by decide, by decide⟩,
   resolveModuleNames_workspace_no_fallback fsEmpty cfgIos wsMylib 4
     "/repo/app/x.ts" "mylib" ⟨⟨"mylib", "/repo/packages/mylib"⟩, none⟩
     (by decide) (by decide) ["mylib"] 0 (by decide)⟩

end RnxResolver
